import Mathlib

/-!
Verification of the PromptExpander extension's expansion resolution core.

The definitions below are a shallow embedding of the JavaScript sources:
  * `src/background.js` — `resolveVariables` (the variable resolver),
  * `src/content.js`   — trigger scanning (`handleTriggerKey`), template
    wrapping (`applyTemplateWrapping`), text splicing (`replaceText`,
    `findTextNode`), snippet expansion (`expandSnippet`) and undo
    (`undoLastExpansion`).

Strings are modelled by Lean `String` (a packed `List Char`); each `Char`
stands for one JavaScript string element.  Braces inside Lean string
literals are written with the escapes `\x7b` (`{`) and `\x7d` (`}`).
-/

/-! ### JavaScript `String.prototype.replace` with a `g`-flagged pattern.

`resolveVariables` builds `new RegExp("\\{\\{" + key + "\\}\\}", "g")`.
This section gives the replacement scan for a pattern denoting a single
literal text (the core case; the parsing of the constructed pattern, with
the alternation the unescaped key can introduce, follows in the next
section), scanning left to right over non-overlapping occurrences exactly
as the `g` flag does.

JavaScript substitutes `$`-sequences inside the replacement string
(ECMA-262 `GetSubstitution`): `$$` is a literal `$`, `$&` the matched text,
a dollar followed by a backquote the text before the match, a dollar
followed by a quote the text after the match; any other `$` is literal
(the pattern has no capture groups, so `$1`… stay literal as well). -/

/-- ECMA-262 `GetSubstitution` for a pattern with no capture groups.
`matched` is the matched text, `beforeCtx` the part of the original string
before the match, `afterCtx` the part after it, and the last argument the
replacement template. -/
def getSubstitution (matched beforeCtx afterCtx : List Char) : List Char → List Char
  | [] => []
  | c :: rest =>
    if c = '$' then
      match rest with
      | [] => ['$']
      | d :: rest2 =>
        if d = '$' then '$' :: getSubstitution matched beforeCtx afterCtx rest2
        else if d = '&' then matched ++ getSubstitution matched beforeCtx afterCtx rest2
        else if d = Char.ofNat 96 then beforeCtx ++ getSubstitution matched beforeCtx afterCtx rest2
        else if d = Char.ofNat 39 then afterCtx ++ getSubstitution matched beforeCtx afterCtx rest2
        else '$' :: getSubstitution matched beforeCtx afterCtx (d :: rest2)
    else c :: getSubstitution matched beforeCtx afterCtx rest

/-- One left-to-right scan of `s` replacing every non-overlapping occurrence
of the literal pattern `pat`, with JavaScript `$`-substitution applied to the
replacement `rep`.  `beforeAcc` accumulates the already-scanned part of the
original string (needed for the dollar-backquote sequence); `fuel` bounds the
recursion and is chosen `≥` the length of `s` by the wrapper, so it never
runs out. -/
def replaceAllAux (pat rep : List Char) : Nat → List Char → List Char → List Char
  | 0, _, s => s
  | _ + 1, _, [] => []
  | fuel + 1, beforeAcc, c :: s =>
    if pat.isPrefixOf (c :: s) then
      getSubstitution pat beforeAcc (s.drop (pat.length - 1)) rep
        ++ replaceAllAux pat rep fuel (beforeAcc ++ pat) (s.drop (pat.length - 1))
    else
      c :: replaceAllAux pat rep fuel (beforeAcc ++ [c]) s

/-- `s.replace(regex, rep)` for a regex that denotes a single literal text
`pat`: the literal-pattern core of the replacement.  The program-level
function is `jsRegexReplace` below, which parses the pattern the source
actually constructs and reduces to this one exactly when the key is
regex-literal. -/
def jsReplaceAll (s pat rep : String) : String :=
  String.mk (replaceAllAux pat.data rep.data (s.data.length + 1) [] s.data)

/-- `s.includes(pat)` (substring test), used for the loop condition
`resolved.includes('{{')` in `resolveVariables`. -/
def hasInfixL (pat : List Char) : List Char → Bool
  | [] => pat.isPrefixOf []
  | c :: s => pat.isPrefixOf (c :: s) || hasInfixL pat s

/-- JavaScript `v || ''` on a string value: the empty string is the only
falsy string, and it is sent to `''` — the identity on strings, written out
for fidelity to `variables[key] || ''` (src/background.js line 174). -/
def jsOr (v : String) : String :=
  if v = "" then "" else v

/-! ### The constructed per-key regex.

The source does not escape the key: `new RegExp('\\{\\{' + key +
'\\}\\}', 'g')` pastes the key text into the pattern source, so a key
containing regex syntax characters is interpreted, not matched literally.
The embedding parses the constructed pattern as an alternation (`|`, the
lowest-precedence regex operator) of literal text runs, with the escapes
for braces denoting literal braces.  This is the ECMA-262 semantics of the
constructed pattern whenever the key contains no regex syntax characters
other than `|` — in particular for the ambient keys (word characters) and
for alternation-bearing formData keys such as `z|q`.  Keys using the other
syntax characters (backslash, dot, quantifiers, parentheses, classes,
anchors) are outside the embedding's domain; every theorem below that
quantifies over keys restricts them to fully literal keys
(`regexLiteralKey`). -/

/-- ECMA-262 SyntaxCharacter: the fifteen characters
`^ $ \ . * + ? ( ) [ ] { } |`. -/
def isRegexSyntaxChar (c : Char) : Bool :=
  c = '^' || c = '$' || c = '\\' || c = '.' || c = '*' || c = '+' || c = '?' ||
  c = '(' || c = ')' || c = '[' || c = ']' || c = '{' || c = '}' || c = '|'

/-- A key whose every character is regex-literal: the constructed pattern
then denotes exactly the literal text `{{key}}`. -/
def regexLiteralKey (k : String) : Prop :=
  ∀ c ∈ k.data, isRegexSyntaxChar c = false

instance (k : String) : Decidable (regexLiteralKey k) := by
  unfold regexLiteralKey; infer_instance

/-- The pattern source string the code hands to `new RegExp`
(src/background.js line 173): backslash, brace, backslash, brace, the raw
key text, backslash, brace, backslash, brace. -/
def keyPattern (k : String) : List Char :=
  ['\\', '{', '\\', '{'] ++ (k.data ++ ['\\', '}', '\\', '}'])

/-- Prepend a character to the first alternative of a parsed pattern. -/
def altConsHead (c : Char) : List (List Char) → List (List Char)
  | [] => [[c]]
  | a :: as => (c :: a) :: as

/-- Parse a pattern source as an alternation of literal text runs: `|`
separates alternatives, a backslash escapes the next character to a
literal (the constructed pattern only ever escapes braces), every other
character stands for itself. -/
def parseAlts : List Char → List (List Char)
  | [] => [[]]
  | c :: rest =>
    if c = '|' then [] :: parseAlts rest
    else if c = '\\' then
      match rest with
      | [] => [[]]
      | d :: rest2 => altConsHead d (parseAlts rest2)
    else altConsHead c (parseAlts rest)

/-- The first alternative, in pattern order, matching at this position —
regex alternation tries alternatives left to right and the first success
wins. -/
def firstAltMatch (alts : List (List Char)) (s : List Char) : Option (List Char) :=
  alts.find? (fun a => a.isPrefixOf s)

/-- Global replacement for an alternation-of-literals regex: the scan
visits positions left to right; at each position the first matching
alternative, if any, is replaced through `getSubstitution` and the scan
resumes after the consumed text; an empty match (possible only for a
pattern with an empty alternative) is substituted without consuming input
and the scan advances one character, per the `g` flag's
empty-match-advance rule. -/
def regexReplaceAux (alts : List (List Char)) (rep : List Char) :
    Nat → List Char → List Char → List Char
  | 0, _, s => s
  | fuel + 1, beforeAcc, s =>
    match firstAltMatch alts s with
    | none =>
      match s with
      | [] => []
      | c :: s' => c :: regexReplaceAux alts rep fuel (beforeAcc ++ [c]) s'
    | some [] =>
      match s with
      | [] => getSubstitution [] beforeAcc [] rep
      | c :: s' =>
        getSubstitution [] beforeAcc s rep
          ++ c :: regexReplaceAux alts rep fuel (beforeAcc ++ [c]) s'
    | some a =>
      getSubstitution a beforeAcc (s.drop a.length) rep
        ++ regexReplaceAux alts rep fuel (beforeAcc ++ a) (s.drop a.length)

/-- `s.replace(new RegExp(pattern, 'g'), rep)` as the source performs it
(src/background.js lines 173-174): the unescaped key is pasted into the
pattern, which is applied globally. -/
def jsRegexReplace (s k rep : String) : String :=
  String.mk (regexReplaceAux (parseAlts (keyPattern k)) rep.data
    (s.data.length + 1) [] s.data)

/-! ### The variable resolver (src/background.js, `resolveVariables`). -/

/-- The wall-clock strings `new Date()` is formatted to at call time
(`toLocaleDateString`, `toLocaleTimeString`, `toLocaleString`).  The
embedding takes them as an explicit parameter. -/
structure ClockStrings where
  dateStr : String
  timeStr : String
  datetimeStr : String
deriving DecidableEq

/-- The context bag handed to `resolveVariables`.  Missing/undefined fields
surface as `""` via `|| ''` in the source; `formData` is an open-ended
key-to-value mapping, modelled as an association list in object-key
insertion order. -/
structure ExpansionContext where
  pageTitle : String
  pageUrl : String
  selectedText : String
  clipboard : String
  domain : String
  formData : List (String × String)
deriving DecidableEq

/-- The fixed ambient entries of the `variables` object literal, in the
source's insertion order (src/background.js lines 152-161). -/
def baseVariables (clock : ClockStrings) (ctx : ExpansionContext) : List (String × String) :=
  [("date", clock.dateStr), ("time", clock.timeStr), ("datetime", clock.datetimeStr),
   ("page_title", jsOr ctx.pageTitle), ("page_url", jsOr ctx.pageUrl),
   ("selected_text", jsOr ctx.selectedText), ("clipboard", jsOr ctx.clipboard),
   ("domain", jsOr ctx.domain)]

/-- Adding one spread entry to an object literal: an existing key keeps its
position but takes the new value; a new key is appended. -/
def spreadInsert (vars : List (String × String)) (kv : String × String) :
    List (String × String) :=
  if vars.any (fun p => p.1 == kv.1) then
    vars.map (fun p => if p.1 == kv.1 then (p.1, kv.2) else p)
  else vars ++ [kv]

/-- The `variables` table: the ambient entries with `...context.formData`
spread over them (src/background.js line 161). -/
def buildVariables (clock : ClockStrings) (ctx : ExpansionContext) :
    List (String × String) :=
  ctx.formData.foldl spreadInsert (baseVariables clock ctx)

/-- The literal text `{{key}}` denoted by the regex the source builds for a
(word-character) key. -/
def wrapKey (k : String) : String :=
  "\x7b\x7b" ++ k ++ "\x7d\x7d"

/-- One substitution pass: `Object.keys(variables).forEach(key => resolved =
resolved.replace(new RegExp('\\{\\{' + key + '\\}\\}', 'g'),
variables[key] || ''))` (src/background.js lines 172-175), with the key
pasted unescaped into the pattern. -/
def substPass (vars : List (String × String)) (s : String) : String :=
  vars.foldl (fun acc kv => jsRegexReplace acc kv.1 (jsOr kv.2)) s

/-- The resolution loop: `while (resolved.includes('{{') && iterations <
maxIterations) { … if unchanged break; iterations++ }` with
`maxIterations = 10`.  The fuel counts the substitution passes still
allowed; a pass that changes nothing ends the loop. -/
def resolveLoop (vars : List (String × String)) : Nat → String → String
  | 0, s => s
  | fuel + 1, s =>
    if hasInfixL ['{', '{'] s.data then
      if substPass vars s = s then s
      else resolveLoop vars fuel (substPass vars s)
    else s

/-- `resolveVariables(text, context)` (src/background.js lines 149-183). -/
def resolveVariables (clock : ClockStrings) (ctx : ExpansionContext) (text : String) : String :=
  resolveLoop (buildVariables clock ctx) 10 text

/-! ### The trigger scanner (src/content.js, `handleTriggerKey` /
`handleTextInput`).

The source matches `beforeCursor` against the regex
`escapeRegex(config.triggerPrefix) + "([\\w\\d_-]+)$"`:
the (escaped, hence literal) trigger-prefix text followed by one or more
word characters, anchored at the end of the text before the cursor.
`escapeRegex` is defined outside the included sources; per the
specification it escapes regex metacharacters so the configured marker is
matched literally.  The scan below finds the leftmost position at which
that anchored pattern matches, which is exactly the regex's semantics. -/

/-- The character class `[\w\d_-]` (ASCII letters, digits, underscore,
hyphen). -/
def isTriggerWordChar (c : Char) : Bool :=
  c.isAlpha || c.isDigit || c = '_' || c = '-'

/-- Leftmost match of `pfx + [\w\d_-]+ $` inside a text: at each position,
the pattern matches when the prefix text starts there and everything after
it, up to the end, is one or more word characters.  Returns the captured
trigger body of the leftmost match. -/
def scanTriggerAux (pfx : List Char) : List Char → Option (List Char)
  | [] => none
  | c :: rest =>
    if pfx.isPrefixOf (c :: rest) && !((c :: rest).drop pfx.length).isEmpty
        && ((c :: rest).drop pfx.length).all isTriggerWordChar then
      some ((c :: rest).drop pfx.length)
    else scanTriggerAux pfx rest

/-- A successful trigger match: the trigger name (without the marker) and
the half-open span `[startPos, endPos)` of the full match, prefix included,
with `startPos = cursorPos - triggerMatch[0].length` as in the source. -/
structure TriggerMatch where
  trigger : String
  startPos : Nat
  endPos : Nat
deriving DecidableEq

/-- The trigger scan of `handleTriggerKey` (src/content.js lines 145-155):
`text.substring(0, cursorPos)` matched against the anchored trigger
pattern. -/
def scanTrigger (pfx text : String) (cursorPos : Nat) : Option TriggerMatch :=
  match scanTriggerAux pfx.data (text.data.take cursorPos) with
  | none => none
  | some body =>
    some ⟨String.mk body, cursorPos - (pfx.length + body.length), cursorPos⟩

/-! ### The commit handler (src/content.js, `handleTriggerKey`). -/

/-- What the commit handler goes on to do after a syntactic match:
open the dynamic form (the `form` trigger), expand a known snippet, or
nothing at all (unknown trigger: no splice, no history push). -/
inductive CommitAction where
  | showFormAct (startPos endPos : Nat)
  | expandAct (trigger : String) (startPos endPos : Nat)
  | noAction
deriving DecidableEq

/-- The observable outcome of one `handleTriggerKey` call: whether
`e.preventDefault()` was invoked, and the action taken. -/
structure CommitResult where
  preventDefault : Bool
  action : CommitAction
deriving DecidableEq

/-- `handleTriggerKey` (src/content.js lines 143-165): on a syntactic
trigger match it calls `e.preventDefault()` unconditionally, then opens the
form for the `form` trigger, expands when `config.snippets[trigger]` is
truthy, and otherwise does nothing further. -/
def handleTriggerKey (snippetKeys : List String) (pfx text : String) (cursorPos : Nat) :
    CommitResult :=
  match scanTrigger pfx text cursorPos with
  | none => ⟨false, CommitAction.noAction⟩
  | some m =>
    ⟨true,
      if m.trigger = "form" then CommitAction.showFormAct m.startPos m.endPos
      else if snippetKeys.contains m.trigger then
        CommitAction.expandAct m.trigger m.startPos m.endPos
      else CommitAction.noAction⟩

/-! ### The template wrapper (src/content.js, `applyTemplateWrapping`). -/

/-- A template record `{ name, pre, post }`. -/
structure Template where
  name : String
  pre : String
  post : String
deriving DecidableEq

/-- The character class `\w` (ASCII letters, digits, underscore). -/
def isWordCharJS (c : Char) : Bool :=
  c.isAlpha || c.isDigit || c = '_'

/-- The literal head of the template marker. -/
def templateMarkerHead : List Char := "[template:".data

/-- The anchored regex `/^\[template:(\w+)\](.*)/s`: the literal
`[template:`, a non-empty greedy run of word characters, a `]`, then the
rest of the content (the `s` flag lets it span newlines).  Because `]` is
not a word character, the greedy run is exactly the maximal word-character
run after the colon. -/
def parseTemplateMarker (s : List Char) : Option (List Char × List Char) :=
  if templateMarkerHead.isPrefixOf s then
    let t := s.drop templateMarkerHead.length
    let nm := t.takeWhile isWordCharJS
    if nm.isEmpty then none
    else
      match t.drop nm.length with
      | c :: r => if c = ']' then some (nm, r) else none
      | [] => none
  else none

/-- `config.templates[name]` lookup, modelled over an association list. -/
def lookupTemplate (templates : List (String × Template)) (k : String) : Option Template :=
  (templates.find? (fun p => p.1 == k)).map (fun p => p.2)

/-- `applyTemplateWrapping(content, context)` (src/content.js lines
243-257): when the marker matches and the named template exists, returns
`pre + rest + post`; in every other case — no marker, or a marker whose
name has no dictionary entry — it returns the content unchanged. -/
def applyTemplateWrapping (templates : List (String × Template)) (content : String) : String :=
  match parseTemplateMarker content.data with
  | none => content
  | some (nm, restC) =>
    match lookupTemplate templates (String.mk nm) with
    | some t => t.pre ++ String.mk restC ++ t.post
    | none => content

/-! ### The text-surface adapter (src/content.js, `replaceText`,
`findTextNode`, and the undo paths of `undoLastExpansion`). -/

/-- A flat-value surface: an `INPUT`/`TEXTAREA` element's `value` together
with its linear selection range. -/
structure FlatSurface where
  value : String
  selStart : Nat
  selEnd : Nat
deriving DecidableEq

/-- JavaScript `text.substring(a, b)`: arguments are clamped to
`[0, length]` and swapped when out of order. -/
def jsSubstring (s : String) (a b : Nat) : String :=
  String.mk (((s.data.take (max (min a s.data.length) (min b s.data.length))).drop
    (min (min a s.data.length) (min b s.data.length))))

/-- The flat branch of `replaceText` (src/content.js lines 261-267):
`value = text.substring(0, startPos) + newText + text.substring(endPos)`,
then `selectionStart = selectionEnd = startPos + newText.length` (the DOM
clamps an out-of-range selection offset to the value's length). -/
def replaceTextFlat (f : FlatSurface) (startPos endPos : Nat) (newText : String) :
    FlatSurface :=
  let newVal := jsSubstring f.value 0 startPos ++ newText
    ++ jsSubstring f.value endPos f.value.length
  let pos := min (startPos + newText.length) newVal.length
  ⟨newVal, pos, pos⟩

/-- A structured (contenteditable) surface: the document-ordered text
leaves, and the global caret offset if a caret was programmatically placed
(`none` when no selection has been established by the adapter). -/
structure StructuredSurface where
  leaves : List String
  caret : Option Nat
deriving DecidableEq

/-- The walk of `findTextNode` (src/content.js lines 287-307): document
order over text leaves, accumulating `currentPos`, returning the first leaf
with `currentPos + nodeLength >= position`.  The returned node is
identified by its index, its cumulative start offset, and its text. -/
def findTextNodeAux (position : Nat) : List String → Nat → Nat →
    Option (Nat × Nat × String)
  | [], _, _ => none
  | leaf :: rest, currentPos, idx =>
    if position ≤ currentPos + leaf.length then some (idx, currentPos, leaf)
    else findTextNodeAux position rest (currentPos + leaf.length) (idx + 1)

/-- `findTextNode(element, position)`: the walk started at the first leaf
with `currentPos = 0`. -/
def findTextNode (leaves : List String) (position : Nat) : Option (Nat × Nat × String) :=
  findTextNodeAux position leaves 0 0

/-- A DOM exception raised by `Range.setStart`/`setEnd` when an offset
exceeds the addressed node's length. -/
inductive DomErr where
  | indexSize
deriving DecidableEq

/-- The contenteditable branch of `replaceText` (src/content.js lines
268-283): locate the leaf covering `startPos`, and if none is found do
nothing (silent no-op).  Otherwise a `Range` is set with the *global*
offsets used as local offsets into that leaf — `setStart`/`setEnd` throw
`IndexSizeError` when an offset exceeds the leaf's length, and an end
before the start collapses the range to the end point — and
`execCommand('insertText')` replaces the selected range with the new text,
leaving the caret right after it. -/
def replaceTextStructured (s : StructuredSurface) (startPos endPos : Nat)
    (newText : String) : Except DomErr StructuredSurface :=
  match findTextNode s.leaves startPos with
  | none => Except.ok s
  | some (idx, nodeStart, node) =>
    if node.length < startPos then Except.error DomErr.indexSize
    else if node.length < endPos then Except.error DomErr.indexSize
    else
      let lo := if endPos < startPos then endPos else startPos
      let newNode := String.mk (node.data.take lo ++ newText.data ++ node.data.drop endPos)
      Except.ok ⟨s.leaves.set idx newNode, some (nodeStart + lo + newText.length)⟩

/-- The two surface kinds behind the one splice/read/undo contract. -/
inductive Surface where
  | flatS (f : FlatSurface)
  | structuredS (s : StructuredSurface)
deriving DecidableEq

/-- `element.value || element.textContent || ''`: the full text of a
surface (for a structured surface, `textContent` concatenates the text
leaves in document order). -/
def surfaceText : Surface → String
  | Surface.flatS f => f.value
  | Surface.structuredS s => String.join s.leaves

/-- One entry of `expansionHistory` (src/content.js lines 192-200). -/
structure ExpansionRecord where
  originalText : String
  trigger : String
  startPos : Nat
  endPos : Nat
  expandedContent : String
  timestamp : Nat
deriving DecidableEq

/-- The record `expandSnippet` pushes before splicing: the surface's full
text at capture time, the trigger, the splice span, the expanded content
and `Date.now()`. -/
def captureRecord (surf : Surface) (trigger content : String) (startPos endPos now : Nat) :
    ExpansionRecord :=
  ⟨surfaceText surf, trigger, startPos, endPos, content, now⟩

/-- The undo paths of `undoLastExpansion` (src/content.js lines 517-523)
applied to one surface: a flat surface gets `value = record.originalText`
and `selectionStart = selectionEnd = record.endPos` (DOM-clamped to the
restored length); a structured surface gets
`textContent = record.originalText`, which replaces its children by a
single text leaf — and sets no caret position at all. -/
def undoRecordOn (r : ExpansionRecord) : Surface → Surface
  | Surface.flatS _ =>
    Surface.flatS ⟨r.originalText, min r.endPos r.originalText.length,
      min r.endPos r.originalText.length⟩
  | Surface.structuredS _ => Surface.structuredS ⟨[r.originalText], none⟩

/-! ### The expansion controller (src/content.js, `expandSnippet` and
`undoLastExpansion`). -/

/-- The outcome of `await chrome.runtime.sendMessage({type:
'RESOLVE_VARIABLES', …})`: a truthy response `{resolved, tokens}`, a falsy
(missing) response, or a rejected promise — in the last case the `await`
throws and `expandSnippet`'s remaining statements do not run. -/
inductive ResolveResponse where
  | okResp (resolved : String) (tokens : Nat)
  | nullResp
  | rejectedResp
deriving DecidableEq

/-- The content-script state touched by one `expandSnippet` call. -/
structure ExpandState where
  isProcessing : Bool
  surface : FlatSurface
  history : List ExpansionRecord
  notifications : List String
deriving DecidableEq

/-- `expandSnippet(element, trigger, startPos, endPos)` (src/content.js
lines 168-219) on a flat surface: sets `isProcessing = true`, awaits the
resolution response, and on a truthy response wraps, pushes the history
record, splices, and (when `tokens > 100`) notifies; `isProcessing = false`
is the final statement of the function body — a rejected `await` throws
past it, so on that path the guard is never reset. -/
def expandSnippetRun (templates : List (String × Template)) (trigger : String)
    (startPos endPos now : Nat) (resp : ResolveResponse) (st : ExpandState) : ExpandState :=
  let st1 : ExpandState := { st with isProcessing := true }
  match resp with
  | ResolveResponse.rejectedResp => st1
  | ResolveResponse.nullResp => { st1 with isProcessing := false }
  | ResolveResponse.okResp resolved tokens =>
    let content := applyTemplateWrapping templates resolved
    let record : ExpansionRecord :=
      ⟨st1.surface.value, trigger, startPos, endPos, content, now⟩
    let st2 : ExpandState := { st1 with history := record :: st1.history }
    let st3 : ExpandState := { st2 with surface := replaceTextFlat st2.surface startPos endPos content }
    let st4 : ExpandState :=
      if 100 < tokens then
        { st3 with notifications := st3.notifications ++ ["token-count"] }
      else st3
    { st4 with isProcessing := false }

/-- An advisory notification `showNotification(message, level)`. -/
structure NotificationMsg where
  message : String
  level : String
deriving DecidableEq

/-- The whole-page state the undo handler acts on: every text surface of
the page, and the single global history stack, each record tagged with the
index of the surface it was captured from (the source stores the element
reference itself).  The stack's most recent record is the head. -/
structure PageState where
  surfaces : List Surface
  history : List (Nat × ExpansionRecord)
deriving DecidableEq

/-- `undoLastExpansion()` (src/content.js lines 508-526): on an empty
history stack it only shows `'No expansions to undo'` (level `info`) and
returns; otherwise it pops the most recent record, restores that record's
surface, and reports the undo. -/
def undoLastExpansion (st : PageState) : PageState × NotificationMsg :=
  match st.history with
  | [] => (st, ⟨"No expansions to undo", "info"⟩)
  | (idx, r) :: rest =>
    match st.surfaces[idx]? with
    | some surf =>
      (⟨st.surfaces.set idx (undoRecordOn r surf), rest⟩,
        ⟨"Undid expansion of :" ++ r.trigger, "success"⟩)
    | none => (⟨st.surfaces, rest⟩, ⟨"Undid expansion of :" ++ r.trigger, "success"⟩)

/-! ### Specification-level resolver (for the refinement comparison).

The specification describes the substitution as: "Replaces every occurrence
of `{{key}}` for every known key, globally, case-sensitively, exact-match
only", with "the substituted value appears in the output verbatim".  The
definitions below follow those words: the same left-to-right scan, but the
replacement value is inserted verbatim, with no `$`-substitution. -/

/-- Spec-level global replacement: like `replaceAllAux` but the replacement
text is inserted verbatim. -/
def specReplaceAllAux (pat rep : List Char) : Nat → List Char → List Char
  | 0, s => s
  | _ + 1, [] => []
  | fuel + 1, c :: s =>
    if pat.isPrefixOf (c :: s) then
      rep ++ specReplaceAllAux pat rep fuel (s.drop (pat.length - 1))
    else
      c :: specReplaceAllAux pat rep fuel s

/-- Spec-level `replace`: every occurrence of the literal pattern replaced
by the value verbatim. -/
def specReplaceAll (s pat rep : String) : String :=
  String.mk (specReplaceAllAux pat.data rep.data (s.data.length + 1) s.data)

/-- Spec-level substitution pass over all known keys. -/
def specSubstPass (vars : List (String × String)) (s : String) : String :=
  vars.foldl (fun acc kv => specReplaceAll acc (wrapKey kv.1) (jsOr kv.2)) s

/-- Spec-level resolution loop (same ceiling and early stop). -/
def specResolveLoop (vars : List (String × String)) : Nat → String → String
  | 0, s => s
  | fuel + 1, s =>
    if hasInfixL ['{', '{'] s.data then
      if specSubstPass vars s = s then s
      else specResolveLoop vars fuel (specSubstPass vars s)
    else s

/-- Spec-level `resolveVariables`: verbatim-replacement resolution. -/
def specResolveVariables (clock : ClockStrings) (ctx : ExpansionContext)
    (text : String) : String :=
  specResolveLoop (buildVariables clock ctx) 10 text

/-! ### Occurrence predicates and placeholder shapes. -/

/-- `pat` occurs as a contiguous substring of `s`. -/
def occursL (pat s : List Char) : Prop :=
  ∃ p q, s = p ++ pat ++ q

/-- A brace-free character sequence (no `{` and no `}`). -/
def braceFreeL (l : List Char) : Prop :=
  ∀ c ∈ l, c ≠ '{' ∧ c ≠ '}'

/-- The closing `}}` of a placeholder. -/
def closeBB : List Char := ['}', '}']

/-- The placeholder text `{{k}}` at the character level. -/
def wrapL (k : List Char) : List Char :=
  '{' :: '{' :: (k ++ closeBB)

instance (l : List Char) : Decidable (braceFreeL l) := by
  unfold braceFreeL; infer_instance

/-- A `$`-free character sequence. -/
def noDollarL (l : List Char) : Prop :=
  ∀ c ∈ l, c ≠ '$'

instance (l : List Char) : Decidable (noDollarL l) := by
  unfold noDollarL; infer_instance

/-! ### Helper lemmas. -/

theorem isPre_iff {l₁ l₂ : List Char} : l₁.isPrefixOf l₂ = true ↔ l₁ <+: l₂ :=
  List.isPrefixOf_iff_prefix

theorem isPre_false {l₁ l₂ : List Char} (h : ¬ l₁ <+: l₂) : l₁.isPrefixOf l₂ = false := by
  cases hb : l₁.isPrefixOf l₂
  · rfl
  · exact absurd (isPre_iff.mp hb) h

theorem preOfAppend {l a b : List Char} (h : l <+: a ++ b) (hl : l.length ≤ a.length) :
    l <+: a := by
  have ha : a <+: a ++ b := List.prefix_append a b
  exact List.prefix_of_prefix_length_le h ha hl

theorem occursL_append_left {pat t : List Char} (u : List Char) (h : occursL pat t) :
    occursL pat (u ++ t) := by
  obtain ⟨p, q, rfl⟩ := h
  exact ⟨u ++ p, q, by simp⟩

theorem occursL_cons {pat t : List Char} (c : Char) (h : occursL pat t) :
    occursL pat (c :: t) :=
  occursL_append_left [c] h

theorem jsOr_eq (v : String) : jsOr v = v := by
  unfold jsOr
  split <;> simp_all

theorem wrapKey_data (k : String) : (wrapKey k).data = wrapL k.data := by
  simp [wrapKey, wrapL, closeBB, String.data_append]

theorem wrapL_ne_nil (k : List Char) : wrapL k ≠ [] := by
  simp [wrapL]

/-- Two brace-free placeholder bodies followed by `}}` can only be prefixes
of one another when they are equal. -/
theorem bodyCloseEq : ∀ (x y q : List Char), braceFreeL x → braceFreeL y →
    (x ++ closeBB) <+: (y ++ closeBB) ++ q → x = y := by
  intro x
  induction x with
  | nil =>
    intro y q _ hy h
    cases y with
    | nil => rfl
    | cons b y' =>
      simp only [List.nil_append, closeBB, List.cons_append, List.cons_prefix_cons] at h
      exact absurd h.1.symm (hy b (by simp)).2
  | cons a x' ih =>
    intro y q hx hy h
    cases y with
    | nil =>
      simp only [closeBB, List.cons_append, List.nil_append, List.cons_prefix_cons] at h
      exact absurd h.1 (hx a (by simp)).2
    | cons b y' =>
      simp only [List.cons_append, List.cons_prefix_cons] at h
      have hx' : braceFreeL x' := fun c hc => hx c (by simp [hc])
      have hy' : braceFreeL y' := fun c hc => hy c (by simp [hc])
      have := ih y' q hx' hy' (by simpa using h.2)
      simp [h.1, this]

/-- A non-empty suffix of one placeholder that is also a prefix of another
placeholder (followed by anything) forces the two placeholder bodies to be
equal: distinct brace-free placeholders cannot overlap. -/
theorem coreNoOverlap : ∀ (x y r q : List Char), braceFreeL x → braceFreeL y →
    r ≠ [] → r <:+ wrapL x → r <+: wrapL y ++ q → x = y := by
  intro x y r q hx hy hne hsuf hpre
  obtain ⟨u, hu⟩ := hsuf
  match u, hu with
  | [], hu =>
    rw [List.nil_append] at hu
    subst hu
    simp only [wrapL, List.cons_append, List.cons_prefix_cons, true_and] at hpre
    exact bodyCloseEq x y q hx hy (by simpa [List.append_assoc] using hpre)
  | [c], hu =>
    simp only [wrapL, List.cons_append, List.cons.injEq] at hu
    obtain ⟨rfl, hr⟩ := hu
    subst hr
    simp only [wrapL, List.cons_append, List.cons_prefix_cons, true_and] at hpre
    cases hx2 : x with
    | nil =>
      subst hx2
      simp only [List.nil_append, closeBB, List.cons_prefix_cons] at hpre
      exact absurd hpre.1 (by decide)
    | cons a x' =>
      subst hx2
      simp only [List.cons_append, List.cons_prefix_cons] at hpre
      exact absurd hpre.1 (hx a (by simp)).1
  | c₁ :: c₂ :: u', hu =>
    simp only [wrapL, List.cons_append, List.cons.injEq] at hu
    obtain ⟨rfl, rfl, hu'⟩ := hu
    have hsuf' : r <:+ x ++ closeBB := ⟨u', hu'⟩
    match r, hne with
    | h :: r₀, _ =>
      have hmem : h ∈ x ++ closeBB := hsuf'.subset (by simp)
      have hneq : h ≠ '{' := by
        rcases List.mem_append.mp hmem with hm | hm
        · exact (hx h hm).1
        · have hh : h = '}' := by
            simpa [closeBB] using hm
          rw [hh]
          decide
      simp only [wrapL, List.cons_append, List.cons_prefix_cons] at hpre
      exact absurd hpre.1 hneq

/-- A different placeholder pattern matching as a prefix of
`p ++ {{ka}} ++ q` must lie entirely within `p`: it cannot reach into the
protected occurrence. -/
theorem patternClearsProtected {ka kb p q : List Char} (hka : braceFreeL ka)
    (hkb : braceFreeL kb) (hne : ka ≠ kb)
    (h : wrapL kb <+: p ++ (wrapL ka ++ q)) : (wrapL kb).length ≤ p.length := by
  by_contra hlt
  push_neg at hlt
  have hp : p <+: p ++ (wrapL ka ++ q) := List.prefix_append p _
  have hpb : p <+: wrapL kb :=
    List.prefix_of_prefix_length_le hp h (Nat.le_of_lt hlt)
  obtain ⟨r, hr⟩ := hpb
  have hrne : r ≠ [] := by
    intro hnil
    rw [hnil, List.append_nil] at hr
    rw [hr] at hlt
    exact Nat.lt_irrefl _ hlt
  have hrsuf : r <:+ wrapL kb := ⟨p, hr⟩
  obtain ⟨t, ht⟩ := h
  rw [← hr, List.append_assoc] at ht
  have ht' : r ++ t = wrapL ka ++ q := by
    exact (List.append_right_inj p).mp ht
  have hrpre : r <+: wrapL ka ++ q := ⟨t, ht'⟩
  exact hne (coreNoOverlap kb ka r q hkb hka hrne hrsuf hrpre).symm

/-- A different placeholder pattern can never match at a position inside
the protected occurrence: no prefix of `r ++ q` is `{{kb}}` when `r` is a
non-empty suffix of `{{ka}}` and `ka ≠ kb`. -/
theorem patternMissesSuffix {ka kb r q : List Char} (hka : braceFreeL ka)
    (hkb : braceFreeL kb) (hne : ka ≠ kb) (hrne : r ≠ []) (hrsuf : r <:+ wrapL ka) :
    ¬ (wrapL kb <+: r ++ q) := by
  intro h
  rcases Nat.le_total r.length (wrapL kb).length with hle | hle
  · have hrpre : r <+: wrapL kb :=
      List.prefix_of_prefix_length_le (List.prefix_append r q) h hle
    have hrpre' : r <+: wrapL kb ++ [] := by
      rw [List.append_nil]
      exact hrpre
    exact hne (coreNoOverlap ka kb r [] hka hkb hrne hrsuf hrpre')
  · have hbpre : wrapL kb <+: r := preOfAppend h hle
    obtain ⟨w, hw⟩ := hbpre
    have hrpre : r <+: wrapL kb ++ w := by
      rw [hw]
    exact hne (coreNoOverlap ka kb r w hka hkb hrne hrsuf hrpre)

/-- While scanning through a region occupied by a protected occurrence of
`{{ka}}`, the replacement scan for `{{kb}}` (`ka ≠ kb`) copies every
character unchanged: the output starts with the remaining protected suffix.
-/
theorem replaceAllAux_copies {ka kb rep : List Char} (hka : braceFreeL ka)
    (hkb : braceFreeL kb) (hne : ka ≠ kb) :
    ∀ (r : List Char), r ≠ [] → r <:+ wrapL ka →
    ∀ (fuel : Nat) (q beforeAcc : List Char),
    ∃ tail, replaceAllAux (wrapL kb) rep fuel beforeAcc (r ++ q) = r ++ tail := by
  intro r
  induction r with
  | nil => intro hne'; exact absurd rfl hne'
  | cons c r₀ ih =>
    intro _ hrsuf fuel q beforeAcc
    cases fuel with
    | zero => exact ⟨q, rfl⟩
    | succ fuel' =>
      have hcond : (wrapL kb).isPrefixOf (c :: (r₀ ++ q)) = false := by
        apply isPre_false
        intro hpre
        exact patternMissesSuffix hka hkb hne (by simp) hrsuf
          (by simpa [List.cons_append] using hpre)
      rw [List.cons_append, replaceAllAux, hcond]
      simp only [Bool.false_eq_true, if_false]
      cases hr₀ : r₀ with
      | nil => exact ⟨replaceAllAux (wrapL kb) rep fuel' (beforeAcc ++ [c]) q, by simp⟩
      | cons d r₀' =>
        have hr₀ne : r₀ ≠ [] := by rw [hr₀]; simp
        have hr₀suf : r₀ <:+ wrapL ka := by
          obtain ⟨u, hu⟩ := hrsuf
          exact ⟨u ++ [c], by simpa using hu⟩
        obtain ⟨tail, htail⟩ := ih hr₀ne hr₀suf fuel' q (beforeAcc ++ [c])
        subst hr₀
        exact ⟨tail, by rw [htail]; simp⟩

/-- The replacement scan for the pattern `{{kb}}` preserves every occurrence
of a different brace-free placeholder `{{ka}}`. -/
theorem replaceAllAux_preserves {ka kb rep : List Char} (hka : braceFreeL ka)
    (hkb : braceFreeL kb) (hne : ka ≠ kb) :
    ∀ (fuel : Nat) (p q beforeAcc : List Char),
    occursL (wrapL ka) (replaceAllAux (wrapL kb) rep fuel beforeAcc (p ++ (wrapL ka ++ q))) := by
  intro fuel
  induction fuel with
  | zero => intro p q beforeAcc; exact ⟨p, q, by simp [replaceAllAux]⟩
  | succ fuel' ih =>
    intro p q beforeAcc
    cases p with
    | nil =>
      obtain ⟨tail, htail⟩ := replaceAllAux_copies hka hkb hne (wrapL ka)
        (wrapL_ne_nil ka) (by exact List.suffix_rfl) (fuel' + 1) q beforeAcc
      rw [List.nil_append, htail]
      exact ⟨[], tail, by simp⟩
    | cons c p' =>
      rw [List.cons_append, replaceAllAux]
      cases hcond : (wrapL kb).isPrefixOf (c :: (p' ++ (wrapL ka ++ q))) with
      | false =>
        simp only [Bool.false_eq_true, if_false]
        exact occursL_cons c (ih p' q (beforeAcc ++ [c]))
      | true =>
        simp only [if_true]
        have hpre : wrapL kb <+: (c :: p') ++ (wrapL ka ++ q) := by
          rw [List.cons_append]
          exact isPre_iff.mp hcond
        have hlen : (wrapL kb).length ≤ (c :: p').length :=
          patternClearsProtected hka hkb hne hpre
        have hlen' : (wrapL kb).length - 1 ≤ p'.length := by
          simp only [List.length_cons] at hlen
          omega
        have hdrop : (p' ++ (wrapL ka ++ q)).drop ((wrapL kb).length - 1)
            = (p'.drop ((wrapL kb).length - 1)) ++ (wrapL ka ++ q) :=
          List.drop_append_of_le_length hlen'
        rw [hdrop]
        exact occursL_append_left _ (ih _ q (beforeAcc ++ wrapL kb))

theorem jsReplaceAll_preserves {ka : List Char} {kb s rep : String}
    (hka : braceFreeL ka) (hkb : braceFreeL kb.data) (hne : ka ≠ kb.data)
    (h : occursL (wrapL ka) s.data) :
    occursL (wrapL ka) (jsReplaceAll s (wrapKey kb) rep).data := by
  obtain ⟨p, q, hs⟩ := h
  show occursL (wrapL ka)
    (replaceAllAux (wrapKey kb).data rep.data (s.data.length + 1) [] s.data)
  rw [wrapKey_data, hs, List.append_assoc]
  exact replaceAllAux_preserves hka hkb (fun hEq => hne hEq) _ p q []

theorem firstAltMatch_single (pat s : List Char) :
    firstAltMatch [pat] s = if pat.isPrefixOf s then some pat else none := by
  cases h : pat.isPrefixOf s <;> simp [firstAltMatch, List.find?, h]

/-- A pattern with a single non-empty literal alternative replaces exactly
as the literal-pattern scan does. -/
theorem regexReplaceAux_single {pat rep : List Char} (hne : pat ≠ []) :
    ∀ (fuel : Nat) (beforeAcc s : List Char),
    regexReplaceAux [pat] rep fuel beforeAcc s = replaceAllAux pat rep fuel beforeAcc s := by
  intro fuel
  induction fuel with
  | zero => intro beforeAcc s; rfl
  | succ fuel' ih =>
    intro beforeAcc s
    match pat, hne with
    | p :: ps, _ =>
      cases s with
      | nil => rfl
      | cons c s' =>
        rw [regexReplaceAux, replaceAllAux, firstAltMatch_single]
        cases hpre : (p :: ps).isPrefixOf (c :: s') with
        | false =>
          simp only [Bool.false_eq_true, if_false]
          rw [ih]
        | true =>
          simp only [if_true]
          simp only [List.length_cons, List.drop_succ_cons, Nat.add_sub_cancel]
          rw [ih]

theorem parseAlts_lit_tail :
    ∀ (l : List Char), (∀ c ∈ l, isRegexSyntaxChar c = false) →
    parseAlts (l ++ ['\\', '}', '\\', '}']) = [l ++ closeBB] := by
  intro l
  induction l with
  | nil => intro _; rfl
  | cons c l' ih =>
    intro h
    have hc : isRegexSyntaxChar c = false := h c (by simp)
    have hc1 : c ≠ '|' := by
      intro hEq
      rw [hEq] at hc
      exact absurd hc (by decide)
    have hc2 : c ≠ '\\' := by
      intro hEq
      rw [hEq] at hc
      exact absurd hc (by decide)
    rw [List.cons_append, parseAlts.eq_def]
    dsimp only
    rw [if_neg hc1, if_neg hc2]
    rw [ih (fun d hd => h d (by simp [hd]))]
    rfl

/-- For a regex-literal key the constructed pattern parses to the single
literal alternative `{{key}}`. -/
theorem parseAlts_literal {k : List Char} (h : ∀ c ∈ k, isRegexSyntaxChar c = false) :
    parseAlts (['\\', '{', '\\', '{'] ++ (k ++ ['\\', '}', '\\', '}'])) = [wrapL k] := by
  have h1 : parseAlts (['\\', '{', '\\', '{'] ++ (k ++ ['\\', '}', '\\', '}']))
      = altConsHead '{' (altConsHead '{' (parseAlts (k ++ ['\\', '}', '\\', '}']))) := rfl
  rw [h1, parseAlts_lit_tail k h]
  rfl

theorem regexLiteral_braceFree {k : String} (h : regexLiteralKey k) : braceFreeL k.data := by
  unfold regexLiteralKey at h
  intro c hc
  have hc' := h c hc
  refine ⟨?_, ?_⟩
  · intro hEq
    rw [hEq] at hc'
    exact absurd hc' (by decide)
  · intro hEq
    rw [hEq] at hc'
    exact absurd hc' (by decide)

/-- For a regex-literal key the source's replacement coincides with the
literal-text replacement of `{{key}}`. -/
theorem jsRegexReplace_literal {k : String} (h : regexLiteralKey k) (s rep : String) :
    jsRegexReplace s k rep = jsReplaceAll s (wrapKey k) rep := by
  unfold jsRegexReplace jsReplaceAll keyPattern
  unfold regexLiteralKey at h
  rw [parseAlts_literal h, regexReplaceAux_single (wrapL_ne_nil k.data), wrapKey_data]

theorem substPass_preserves {ka : List Char} :
    ∀ (vars : List (String × String)) (s : String), braceFreeL ka →
    (∀ kv ∈ vars, kv.1.data ≠ ka ∧ regexLiteralKey kv.1) →
    occursL (wrapL ka) s.data → occursL (wrapL ka) (substPass vars s).data := by
  intro vars
  induction vars with
  | nil => intro s _ _ h; simpa [substPass] using h
  | cons kv rest ih =>
    intro s hka hvars h
    have hbridge : jsRegexReplace s kv.1 (jsOr kv.2)
        = jsReplaceAll s (wrapKey kv.1) (jsOr kv.2) :=
      jsRegexReplace_literal (hvars kv (by simp)).2 s (jsOr kv.2)
    have hstep : occursL (wrapL ka) (jsRegexReplace s kv.1 (jsOr kv.2)).data := by
      rw [hbridge]
      exact jsReplaceAll_preserves hka (regexLiteral_braceFree (hvars kv (by simp)).2)
        (fun hEq => (hvars kv (by simp)).1 hEq.symm) h
    have hrest : ∀ p ∈ rest, p.1.data ≠ ka ∧ regexLiteralKey p.1 :=
      fun p hp => hvars p (by simp [hp])
    simpa [substPass, List.foldl_cons] using
      ih (jsRegexReplace s kv.1 (jsOr kv.2)) hka hrest hstep

theorem resolveLoop_preserves {ka : List Char} {vars : List (String × String)}
    (hka : braceFreeL ka)
    (hvars : ∀ kv ∈ vars, kv.1.data ≠ ka ∧ regexLiteralKey kv.1) :
    ∀ (fuel : Nat) (s : String), occursL (wrapL ka) s.data →
    occursL (wrapL ka) (resolveLoop vars fuel s).data := by
  intro fuel
  induction fuel with
  | zero => intro s h; simpa [resolveLoop] using h
  | succ fuel' ih =>
    intro s h
    rw [resolveLoop]
    split
    · split
      · exact h
      · exact ih (substPass vars s) (substPass_preserves vars s hka hvars h)
    · exact h

theorem getSubstitution_noDollar {rep : List Char} (h : noDollarL rep)
    (matched beforeCtx afterCtx : List Char) :
    getSubstitution matched beforeCtx afterCtx rep = rep := by
  induction rep with
  | nil => rfl
  | cons c rest ih =>
    have hc : c ≠ '$' := h c (by simp)
    have hrest : noDollarL rest := fun d hd => h d (by simp [hd])
    rw [getSubstitution.eq_def]
    simp only [if_neg hc]
    rw [ih hrest]

theorem replaceAllAux_noDollar {pat rep : List Char} (h : noDollarL rep) :
    ∀ (fuel : Nat) (beforeAcc s : List Char),
    replaceAllAux pat rep fuel beforeAcc s = specReplaceAllAux pat rep fuel s := by
  intro fuel
  induction fuel with
  | zero => intro beforeAcc s; rfl
  | succ fuel' ih =>
    intro beforeAcc s
    cases s with
    | nil => rfl
    | cons c s' =>
      rw [replaceAllAux, specReplaceAllAux]
      split
      · rw [getSubstitution_noDollar h, ih]
      · rw [ih]

theorem jsReplaceAll_noDollar {s pat rep : String} (h : noDollarL rep.data) :
    jsReplaceAll s pat rep = specReplaceAll s pat rep := by
  unfold jsReplaceAll specReplaceAll
  rw [replaceAllAux_noDollar h]

theorem substPass_noDollar :
    ∀ (vars : List (String × String)) (s : String),
    (∀ kv ∈ vars, regexLiteralKey kv.1 ∧ noDollarL kv.2.data) →
    substPass vars s = specSubstPass vars s := by
  intro vars
  induction vars with
  | nil => intro s _; rfl
  | cons kv rest ih =>
    intro s hvars
    have hkv : noDollarL (jsOr kv.2).data := by
      rw [jsOr_eq]
      exact (hvars kv (by simp)).2
    simp only [substPass, specSubstPass, List.foldl_cons]
    rw [show (jsRegexReplace s kv.1 (jsOr kv.2))
        = specReplaceAll s (wrapKey kv.1) (jsOr kv.2) from
      (jsRegexReplace_literal (hvars kv (by simp)).1 s (jsOr kv.2)).trans
        (jsReplaceAll_noDollar hkv)]
    exact ih (specReplaceAll s (wrapKey kv.1) (jsOr kv.2))
      (fun p hp => hvars p (by simp [hp]))

theorem resolveLoop_noDollar {vars : List (String × String)}
    (hvars : ∀ kv ∈ vars, regexLiteralKey kv.1 ∧ noDollarL kv.2.data) :
    ∀ (fuel : Nat) (s : String),
    resolveLoop vars fuel s = specResolveLoop vars fuel s := by
  intro fuel
  induction fuel with
  | zero => intro s; rfl
  | succ fuel' ih =>
    intro s
    rw [resolveLoop, specResolveLoop, substPass_noDollar vars s hvars]
    split
    · split
      · rfl
      · exact ih (specSubstPass vars s)
    · rfl

theorem replaceAllAux_no_occurrence {pat rep : List Char} :
    ∀ (fuel : Nat) (beforeAcc s : List Char), hasInfixL pat s = false →
    replaceAllAux pat rep fuel beforeAcc s = s := by
  intro fuel
  induction fuel with
  | zero => intro beforeAcc s _; rfl
  | succ fuel' ih =>
    intro beforeAcc s h
    cases s with
    | nil => rfl
    | cons c s' =>
      rw [hasInfixL, Bool.or_eq_false_iff] at h
      rw [replaceAllAux, h.1]
      simp only [Bool.false_eq_true, if_false]
      rw [ih _ s' h.2]

theorem resolveLoop_iter (vars : List (String × String)) :
    ∀ (fuel : Nat) (s : String),
    ∃ n, n ≤ fuel ∧ resolveLoop vars fuel s = (substPass vars)^[n] s := by
  intro fuel
  induction fuel with
  | zero => intro s; exact ⟨0, Nat.le_refl 0, rfl⟩
  | succ fuel' ih =>
    intro s
    rw [resolveLoop]
    split
    · split
      · exact ⟨0, Nat.zero_le _, rfl⟩
      · obtain ⟨n, hn, h⟩ := ih (substPass vars s)
        exact ⟨n + 1, Nat.succ_le_succ hn,
          by rw [h, Function.iterate_succ_apply]⟩
    · exact ⟨0, Nat.zero_le _, rfl⟩

theorem resolveLoop_stable {vars : List (String × String)} {s : String}
    (h : substPass vars s = s) : ∀ fuel, resolveLoop vars fuel s = s := by
  intro fuel
  cases fuel with
  | zero => rfl
  | succ fuel' =>
    rw [resolveLoop, h]
    simp

theorem scanTriggerAux_some (pfx : List Char) :
    ∀ (before body : List Char), scanTriggerAux pfx before = some body →
    ∃ u, before = u ++ pfx ++ body ∧ body ≠ [] ∧ ∀ c ∈ body, isTriggerWordChar c = true := by
  intro before
  induction before with
  | nil => intro body h; exact absurd h (by simp [scanTriggerAux])
  | cons c rest ih =>
    intro body h
    rw [scanTriggerAux] at h
    split at h
    · rename_i hcond
      simp only [Bool.and_eq_true, Bool.not_eq_eq_eq_not, Bool.not_true,
        List.isEmpty_eq_false, List.all_eq_true] at hcond
      obtain ⟨⟨hpre, hne⟩, hall⟩ := hcond
      obtain ⟨t, ht⟩ := isPre_iff.mp hpre
      have hbody : body = (c :: rest).drop pfx.length := by
        injection h with h'
        exact h'.symm
      have hdrop : (c :: rest).drop pfx.length = t := by
        rw [← ht, List.drop_left]
      refine ⟨[], ?_, ?_, ?_⟩
      · rw [List.nil_append, hbody, hdrop, ht]
      · rw [hbody]
        simpa using hne
      · intro d hd
        exact hall d (by rw [← hbody]; exact hd)
    · obtain ⟨u, hu, hne, hall⟩ := ih body h
      exact ⟨c :: u, by simp [hu], hne, hall⟩

theorem scanTriggerAux_isSome (pfx : List Char) :
    ∀ (u w : List Char), w ≠ [] → (∀ c ∈ w, isTriggerWordChar c = true) →
    (scanTriggerAux pfx (u ++ pfx ++ w)).isSome = true := by
  intro u
  induction u with
  | nil =>
    intro w hne hall
    have hfull : pfx ++ w ≠ [] := by
      intro h
      exact hne (List.append_eq_nil.mp h).2
    obtain ⟨c, rest, hcr⟩ := List.exists_cons_of_ne_nil hfull
    rw [List.nil_append, hcr, scanTriggerAux]
    have hpre : pfx.isPrefixOf (c :: rest) = true := by
      rw [← hcr]
      exact isPre_iff.mpr ⟨w, rfl⟩
    have hdrop : (c :: rest).drop pfx.length = w := by
      rw [← hcr, List.drop_left]
    rw [if_pos ?_]
    · rfl
    · rw [hpre, hdrop]
      simp only [Bool.true_and]
      rw [Bool.and_eq_true]
      constructor
      · simpa using hne
      · rw [List.all_eq_true]
        exact hall
  | cons c u' ih =>
    intro w hne hall
    rw [List.cons_append, List.cons_append, scanTriggerAux]
    split
    · rfl
    · exact ih w hne hall

theorem findTextNodeAux_none (position : Nat) :
    ∀ (leaves : List String) (currentPos idx : Nat),
    currentPos + (leaves.map String.length).sum < position →
    findTextNodeAux position leaves currentPos idx = none := by
  intro leaves
  induction leaves with
  | nil => intro currentPos idx _; rfl
  | cons leaf rest ih =>
    intro currentPos idx h
    simp only [List.map_cons, List.sum_cons] at h
    rw [findTextNodeAux, if_neg (by omega)]
    exact ih (currentPos + leaf.length) (idx + 1) (by omega)

theorem findTextNode_none {leaves : List String} {position : Nat}
    (h : (leaves.map String.length).sum < position) :
    findTextNode leaves position = none :=
  findTextNodeAux_none position leaves 0 0 (by omega)

/-! ### Claim theorems. -/

/-- Claim C1: for every input text and variable table, variable resolution
terminates after at most 10 substitution passes (the result is some
`n ≤ 10`-fold iterate of the pass), it stops early as soon as a pass
changes nothing, and in particular resolving the text `{{a}}` with a
context whose formData maps `a` to `{{a}}` returns exactly `{{a}}`
unchanged. -/
theorem resolveVariables_iteration_ceiling :
    (∀ (vars : List (String × String)) (s : String),
      ∃ n, n ≤ 10 ∧ resolveLoop vars 10 s = (substPass vars)^[n] s) ∧
    (∀ (vars : List (String × String)) (s : String),
      substPass vars s = s → resolveLoop vars 10 s = s) ∧
    resolveVariables ⟨"D", "T", "DT"⟩ ⟨"", "", "", "", "", [("a", "\x7b\x7ba\x7d\x7d")]⟩
      "\x7b\x7ba\x7d\x7d" = "\x7b\x7ba\x7d\x7d" := by
  refine ⟨fun vars s => resolveLoop_iter vars 10 s,
    fun vars s h => resolveLoop_stable h 10, by decide⟩

/-- Witness for C1's early-stop hypothesis at a concrete stable input. -/
theorem resolveVariables_iteration_ceiling_witness :
    substPass [] "q" = "q" ∧ resolveLoop [] 10 "q" = "q" :=
  ⟨by decide, resolveVariables_iteration_ceiling.2.1 [] "q" (by decide)⟩

/-- Claim C2: the trigger scanner reports a match exactly when the text
before the cursor ends with the trigger-prefix text followed by one or more
word characters (letters, digits, underscore, hyphen); `"hello :sn"` with
the cursor at the end and the default marker matches trigger `"sn"` over
the span `[6, 9)`, `"hello : "` does not match, and a cursor at position 0
never matches. -/
theorem scanTrigger_spec :
    (∀ (pfx text : String) (cursorPos : Nat),
      (scanTrigger pfx text cursorPos).isSome = true ↔
        ∃ u w, text.data.take cursorPos = u ++ pfx.data ++ w ∧ w ≠ [] ∧
          ∀ c ∈ w, isTriggerWordChar c = true) ∧
    scanTrigger ":" "hello :sn" 9 = some ⟨"sn", 6, 9⟩ ∧
    scanTrigger ":" "hello : " 8 = none ∧
    (∀ (pfx text : String), scanTrigger pfx text 0 = none) := by
  refine ⟨?_, by decide, by decide, fun pfx text => rfl⟩
  intro pfx text cursorPos
  constructor
  · intro h
    unfold scanTrigger at h
    cases haux : scanTriggerAux pfx.data (text.data.take cursorPos) with
    | none => rw [haux] at h; simp at h
    | some body =>
      obtain ⟨u, hu, hne, hall⟩ := scanTriggerAux_some pfx.data _ body haux
      exact ⟨u, body, hu, hne, hall⟩
  · rintro ⟨u, w, hu, hne, hall⟩
    unfold scanTrigger
    rw [hu]
    have hsome := scanTriggerAux_isSome pfx.data u w hne hall
    cases haux : scanTriggerAux pfx.data (u ++ pfx.data ++ w) with
    | none => rw [haux] at hsome; simp at hsome
    | some body => simp

/-- Counterexample to claim C3: the substituted value does not always
appear in the output verbatim.  With the known key `page_title` carrying
the value `$$`, the text `{{page_title}}` resolves to `$` — JavaScript's
`replace` interprets `$$` in the replacement value — so the value `$$`
does not appear in the output. -/
theorem resolveVariables_dollar_counterexample :
    resolveVariables ⟨"D", "T", "DT"⟩ ⟨"$$", "", "", "", "", []⟩
      "\x7b\x7bpage_title\x7d\x7d" = "$" ∧ ("$" : String) ≠ "$$" :=
  ⟨by decide, by decide⟩

/-- Claim C3 as amended: provided every known key is regex-literal (the
key text is pasted unescaped into the `RegExp`, so a key containing regex
syntax characters matches non-literally) and every known value is
`$`-free, the resolver coincides with the specification-level resolver
that replaces every occurrence of `{{key}}` globally, case-sensitively and
exact-match only, inserting the value verbatim; and for a regex-literal
key whose placeholder does not occur in the text, the replacement leaves
the text unchanged (placeholders whose brace content differs from the key
in any character are unaffected). -/
theorem resolveVariables_verbatim_of_noDollar :
    (∀ (clock : ClockStrings) (ctx : ExpansionContext) (text : String),
      (∀ kv ∈ buildVariables clock ctx, regexLiteralKey kv.1 ∧ noDollarL kv.2.data) →
      resolveVariables clock ctx text = specResolveVariables clock ctx text) ∧
    (∀ (s k rep : String), regexLiteralKey k →
      hasInfixL (wrapL k.data) s.data = false → jsRegexReplace s k rep = s) := by
  constructor
  · intro clock ctx text h
    unfold resolveVariables specResolveVariables
    exact resolveLoop_noDollar h 10 text
  · intro s k rep hk h
    rw [jsRegexReplace_literal hk]
    show String.mk (replaceAllAux (wrapKey k).data rep.data (s.data.length + 1) [] s.data) = s
    rw [wrapKey_data, replaceAllAux_no_occurrence _ _ _ h]

/-- Witness for C3's amended theorem at concrete inputs. -/
theorem resolveVariables_verbatim_of_noDollar_witness :
    (∀ kv ∈ buildVariables ⟨"D", "T", "DT"⟩ ⟨"t", "u", "s", "c", "d", [("a", "b")]⟩,
      regexLiteralKey kv.1 ∧ noDollarL kv.2.data) ∧
    resolveVariables ⟨"D", "T", "DT"⟩ ⟨"t", "u", "s", "c", "d", [("a", "b")]⟩
        "x\x7b\x7ba\x7d\x7dy" =
      specResolveVariables ⟨"D", "T", "DT"⟩ ⟨"t", "u", "s", "c", "d", [("a", "b")]⟩
        "x\x7b\x7ba\x7d\x7dy" ∧
    regexLiteralKey "zz" ∧
    hasInfixL (wrapL ("zz" : String).data) ("abc" : String).data = false ∧
    jsRegexReplace "abc" "zz" "Q" = "abc" :=
  ⟨by decide,
   resolveVariables_verbatim_of_noDollar.1 ⟨"D", "T", "DT"⟩
     ⟨"t", "u", "s", "c", "d", [("a", "b")]⟩ "x\x7b\x7ba\x7d\x7dy" (by decide),
   by decide, by decide,
   resolveVariables_verbatim_of_noDollar.2 "abc" "zz" "Q" (by decide) (by decide)⟩

/-- Counterexample to claim C4: when the marker parses but the name has no
dictionary entry, `applyTemplateWrapping` does **not** strip the marker —
it returns the content fully unchanged.  With an empty template dictionary,
`[template:zzz]rest` comes back as `[template:zzz]rest`, not `rest`. -/
theorem applyTemplateWrapping_absent_counterexample :
    applyTemplateWrapping [] "[template:zzz]rest" = "[template:zzz]rest" ∧
    parseTemplateMarker ("[template:zzz]rest" : String).data =
      some (("zzz" : String).data, ("rest" : String).data) ∧
    ("[template:zzz]rest" : String) ≠ "rest" :=
  ⟨by decide, by decide, by decide⟩

/-- Claim C4 as amended: with no marker the content is returned unchanged;
with a recognized marker, the marker is stripped and the rest wrapped in
`pre`/`post` only when the named template exists — when the name lookup
fails the content is returned fully unchanged, marker included. -/
theorem applyTemplateWrapping_spec :
    ∀ (templates : List (String × Template)) (content : String),
    (parseTemplateMarker content.data = none →
      applyTemplateWrapping templates content = content) ∧
    (∀ nm restC, parseTemplateMarker content.data = some (nm, restC) →
      (∀ t, lookupTemplate templates (String.mk nm) = some t →
        applyTemplateWrapping templates content = t.pre ++ String.mk restC ++ t.post) ∧
      (lookupTemplate templates (String.mk nm) = none →
        applyTemplateWrapping templates content = content)) := by
  intro templates content
  refine ⟨?_, ?_⟩
  · intro h
    unfold applyTemplateWrapping
    rw [h]
  · intro nm restC h
    constructor
    · intro t ht
      unfold applyTemplateWrapping
      rw [h]
      dsimp only
      rw [ht]
    · intro ht
      unfold applyTemplateWrapping
      rw [h]
      dsimp only
      rw [ht]

/-- Witness for C4's amended theorem: the specification's own example
template applied to `[template:cot]X`. -/
theorem applyTemplateWrapping_spec_witness :
    parseTemplateMarker ("[template:cot]X" : String).data =
      some (("cot" : String).data, ("X" : String).data) ∧
    lookupTemplate [("cot", ⟨"Chain of Thought", "P:", ":Q"⟩)]
      (String.mk ("cot" : String).data) = some ⟨"Chain of Thought", "P:", ":Q"⟩ ∧
    applyTemplateWrapping [("cot", ⟨"Chain of Thought", "P:", ":Q"⟩)] "[template:cot]X" =
      "P:" ++ String.mk ("X" : String).data ++ ":Q" :=
  ⟨by decide, by decide,
    ((applyTemplateWrapping_spec [("cot", ⟨"Chain of Thought", "P:", ":Q"⟩)]
      "[template:cot]X").2 ("cot" : String).data ("X" : String).data (by decide)).1
      ⟨"Chain of Thought", "P:", ":Q"⟩ (by decide)⟩

/-- Counterexample to claim C5: on a syntactically valid trigger that is
neither `form` nor a known snippet key, `handleTriggerKey` **does** call
`e.preventDefault()` — it is invoked on every syntactic match, before the
dictionary lookup — even though no expansion occurs. -/
theorem handleTriggerKey_unknown_counterexample :
    (scanTrigger ":" "say :zz" 7).isSome = true ∧
    ("zz" : String) ∉ (["hello"] : List String) ∧
    ("zz" : String) ≠ "form" ∧
    handleTriggerKey ["hello"] ":" "say :zz" 7 = ⟨true, CommitAction.noAction⟩ :=
  ⟨by decide, by decide, by decide, by decide⟩

/-- Claim C5 as amended: an unknown non-`form` trigger makes the commit a
no-op — no splice and no history push (`noAction`) — but the commit key's
default insertion **is** prevented, because `preventDefault` fires on every
syntactic trigger match regardless of the dictionary. -/
theorem handleTriggerKey_unknown_noop :
    ∀ (keys : List String) (pfx text : String) (pos : Nat) (m : TriggerMatch),
    scanTrigger pfx text pos = some m → m.trigger ≠ "form" →
    keys.contains m.trigger = false →
    handleTriggerKey keys pfx text pos = ⟨true, CommitAction.noAction⟩ := by
  intro keys pfx text pos m hscan hform hkeys
  unfold handleTriggerKey
  rw [hscan]
  simp [hform, hkeys]
  simpa using hkeys

/-- Witness for C5's amended theorem at a concrete unknown trigger. -/
theorem handleTriggerKey_unknown_noop_witness :
    scanTrigger ":" "say :zz" 7 = some ⟨"zz", 4, 7⟩ ∧
    (⟨"zz", 4, 7⟩ : TriggerMatch).trigger ≠ "form" ∧
    (["hello"] : List String).contains "zz" = false ∧
    handleTriggerKey ["hello"] ":" "say :zz" 7 = ⟨true, CommitAction.noAction⟩ :=
  ⟨by decide, by decide, by decide,
    handleTriggerKey_unknown_noop ["hello"] ":" "say :zz" 7 ⟨"zz", 4, 7⟩
      (by decide) (by decide) (by decide)⟩

/-- Claim C6 (the code violates it): `expandSnippet` resets the
re-entrancy guard on the falsy-response and success paths, but a rejected
resolution request throws past the final `isProcessing = false` statement
— there is no try/finally — leaving the controller permanently
non-quiescent. -/
theorem expandSnippet_guard_on_rejection :
    (expandSnippetRun [] "t" 4 7 0 ResolveResponse.rejectedResp
      ⟨false, ⟨"say :zz", 7, 7⟩, [], []⟩).isProcessing = true ∧
    (expandSnippetRun [] "t" 4 7 0 ResolveResponse.nullResp
      ⟨false, ⟨"say :zz", 7, 7⟩, [], []⟩).isProcessing = false ∧
    (expandSnippetRun [] "t" 4 7 0 (ResolveResponse.okResp "r" 0)
      ⟨false, ⟨"say :zz", 7, 7⟩, [], []⟩).isProcessing = false :=
  ⟨rfl, rfl, rfl⟩

/-- Counterexample to claim C7: on a structured (contenteditable) surface,
undo restores the text but does not reposition the cursor.  Splicing
`[1, 2)` of `"abcd"` with `"XY"` leaves the caret at 3; undoing assigns
`textContent` and sets no caret — not the record's `endPos` 2. -/
theorem splice_undo_structured_counterexample :
    replaceTextStructured ⟨["abcd"], none⟩ 1 2 "XY" =
      Except.ok ⟨["aXYcd"], some 3⟩ ∧
    undoRecordOn (captureRecord (Surface.structuredS ⟨["abcd"], none⟩) "t" "XY" 1 2 0)
        (Surface.structuredS ⟨["aXYcd"], some 3⟩) =
      Surface.structuredS ⟨["abcd"], none⟩ ∧
    (none : Option Nat) ≠ some 2 :=
  ⟨by rfl, by decide, by decide⟩

/-- Claim C7 as amended: on a flat surface, splicing and then undoing the
recorded expansion restores the exact original text and places the cursor
at the record's `endPos` (for any span with `endPos` within the original
text, per the data-model invariant `startPos ≤ endPos ≤ length`); on a
structured surface the round trip restores the full text, but no cursor is
repositioned. -/
theorem splice_undo_roundtrip :
    (∀ (f : FlatSurface) (startPos endPos now : Nat) (trigger content : String),
      endPos ≤ f.value.length →
      undoRecordOn (captureRecord (Surface.flatS f) trigger content startPos endPos now)
          (Surface.flatS (replaceTextFlat f startPos endPos content)) =
        Surface.flatS ⟨f.value, endPos, endPos⟩) ∧
    (∀ (s s' : StructuredSurface) (startPos endPos now : Nat) (trigger content : String),
      replaceTextStructured s startPos endPos content = Except.ok s' →
      surfaceText (undoRecordOn
          (captureRecord (Surface.structuredS s) trigger content startPos endPos now)
          (Surface.structuredS s')) = surfaceText (Surface.structuredS s)) := by
  constructor
  · intro f startPos endPos now trigger content h
    unfold undoRecordOn captureRecord surfaceText
    rw [Nat.min_eq_left h]
  · intro s s' startPos endPos now trigger content _
    rfl

/-- Witness for C7's amended theorem at concrete inputs. -/
theorem splice_undo_roundtrip_witness :
    (2 ≤ ("abcd" : String).length ∧
      undoRecordOn (captureRecord (Surface.flatS ⟨"abcd", 4, 4⟩) "t" "XY" 1 2 0)
          (Surface.flatS (replaceTextFlat ⟨"abcd", 4, 4⟩ 1 2 "XY")) =
        Surface.flatS ⟨"abcd", 2, 2⟩) ∧
    (replaceTextStructured ⟨["abcd"], none⟩ 1 2 "XY" = Except.ok ⟨["aXYcd"], some 3⟩ ∧
      surfaceText (undoRecordOn
          (captureRecord (Surface.structuredS ⟨["abcd"], none⟩) "t" "XY" 1 2 0)
          (Surface.structuredS ⟨["aXYcd"], some 3⟩)) =
        surfaceText (Surface.structuredS ⟨["abcd"], none⟩)) :=
  ⟨⟨by decide, splice_undo_roundtrip.1 ⟨"abcd", 4, 4⟩ 1 2 0 "t" "XY" (by decide)⟩,
   ⟨by rfl, splice_undo_roundtrip.2 ⟨["abcd"], none⟩ ⟨["aXYcd"], some 3⟩ 1 2 0 "t" "XY"
     (by rfl)⟩⟩

/-- Counterexample to claim C8: the key text is interpolated unescaped
into the `RegExp`, so a known formData key containing the regex
metacharacter `|` (alternation) rewrites a placeholder whose brace content
differs from every known key.  With formData key `z|q` (value `V`), the
constructed pattern is the alternation of the literal runs `{{z` and
`}}`-suffixed `q`, so resolving `{{zz}}` yields `Vz}}`: the placeholder
`{{zz}}` — `zz` being brace-free and not a known key — is destroyed, not
left verbatim. -/
theorem resolver_unknown_placeholder_counterexample :
    resolveVariables ⟨"D", "T", "DT"⟩ ⟨"", "", "", "", "", [("z|q", "V")]⟩
      "\x7b\x7bzz\x7d\x7d" = "Vz\x7d\x7d" ∧
    braceFreeL ("zz" : String).data ∧
    (∀ kv ∈ buildVariables ⟨"D", "T", "DT"⟩ ⟨"", "", "", "", "", [("z|q", "V")]⟩,
      kv.1 ≠ "zz") ∧
    hasInfixL (wrapL ("zz" : String).data) ("Vz\x7d\x7d" : String).data = false :=
  ⟨by decide, by decide, by decide, by decide⟩

/-- Claim C8 as amended: provided every known key is regex-literal (free
of regex syntax characters — all ambient keys are; the key text is pasted
unescaped into a `RegExp` otherwise), a placeholder `{{k}}` whose
brace-free content `k` is not a known key survives verbatim into the
resolver's output — neither replaced nor erased; and a known regex-literal
key whose value is empty (falsy) has every occurrence of its placeholder
replaced by the empty string — its replacement step coincides with the
spec-level verbatim replacement by `""` (in particular
`"x{{page_title}}y"` with an empty page title resolves to `"xy"`). -/
theorem resolver_unknown_placeholder :
    (∀ (clock : ClockStrings) (ctx : ExpansionContext) (k text : String),
      braceFreeL k.data →
      (∀ kv ∈ buildVariables clock ctx, kv.1 ≠ k ∧ regexLiteralKey kv.1) →
      occursL (wrapL k.data) text.data →
      occursL (wrapL k.data) (resolveVariables clock ctx text).data) ∧
    (∀ (s k : String), regexLiteralKey k →
      jsRegexReplace s k (jsOr "") = specReplaceAll s (wrapKey k) "") ∧
    resolveVariables ⟨"D", "T", "DT"⟩ ⟨"", "", "", "", "", []⟩
      "x\x7b\x7bpage_title\x7d\x7dy" = "xy" := by
  refine ⟨?_, ?_, by decide⟩
  · intro clock ctx k text hk hvars hocc
    unfold resolveVariables
    apply resolveLoop_preserves hk ?_ 10 text hocc
    intro kv hkv
    refine ⟨fun hEq => (hvars kv hkv).1 (String.ext hEq), (hvars kv hkv).2⟩
  · intro s k hk
    rw [show jsOr "" = "" from rfl, jsRegexReplace_literal hk]
    exact jsReplaceAll_noDollar (fun c hc => absurd hc (by simp))

/-- Witness for C8's amended theorem at concrete inputs. -/
theorem resolver_unknown_placeholder_witness :
    braceFreeL ("zz" : String).data ∧
    (∀ kv ∈ buildVariables ⟨"D", "T", "DT"⟩ ⟨"", "", "", "", "", []⟩,
      kv.1 ≠ "zz" ∧ regexLiteralKey kv.1) ∧
    occursL (wrapL ("zz" : String).data) ("\x7b\x7bzz\x7d\x7d" : String).data ∧
    occursL (wrapL ("zz" : String).data)
      (resolveVariables ⟨"D", "T", "DT"⟩ ⟨"", "", "", "", "", []⟩
        "\x7b\x7bzz\x7d\x7d").data ∧
    regexLiteralKey "page_title" ∧
    jsRegexReplace "x\x7b\x7bpage_title\x7d\x7dy" "page_title" (jsOr "") =
      specReplaceAll "x\x7b\x7bpage_title\x7d\x7dy" (wrapKey "page_title") "" :=
  ⟨by decide, by decide, ⟨[], [], by decide⟩,
    resolver_unknown_placeholder.1 ⟨"D", "T", "DT"⟩ ⟨"", "", "", "", "", []⟩ "zz"
      "\x7b\x7bzz\x7d\x7d" (by decide) (by decide) ⟨[], [], by decide⟩,
    by decide,
    resolver_unknown_placeholder.2.1 "x\x7b\x7bpage_title\x7d\x7dy" "page_title"
      (by decide)⟩

/-- Counterexample to claim C9: the empty-stack undo leaves the state
untouched but its advisory message is `'No expansions to undo'`, not the
claimed literal `"nothing to undo"`. -/
theorem undoLastExpansion_message_counterexample :
    (undoLastExpansion ⟨[Surface.flatS ⟨"x", 0, 0⟩], []⟩).1 =
      ⟨[Surface.flatS ⟨"x", 0, 0⟩], []⟩ ∧
    (undoLastExpansion ⟨[Surface.flatS ⟨"x", 0, 0⟩], []⟩).2 =
      ⟨"No expansions to undo", "info"⟩ ∧
    ("No expansions to undo" : String) ≠ "nothing to undo" :=
  ⟨rfl, rfl, by decide⟩

/-- Claim C9 as amended: calling undo with an empty expansion history
mutates no surface — the page state is returned exactly as it was — and
reports the advisory (`info`) notification `'No expansions to undo'`. -/
theorem undoLastExpansion_empty_noop :
    ∀ (st : PageState), st.history = [] →
    undoLastExpansion st = (st, ⟨"No expansions to undo", "info"⟩) := by
  intro st h
  obtain ⟨surfs, hist⟩ := st
  have h' : hist = [] := h
  subst h'
  rfl

/-- Witness for C9's amended theorem at a concrete empty-history state. -/
theorem undoLastExpansion_empty_noop_witness :
    (⟨[Surface.flatS ⟨"x", 0, 0⟩], []⟩ : PageState).history = [] ∧
    undoLastExpansion ⟨[Surface.flatS ⟨"x", 0, 0⟩], []⟩ =
      (⟨[Surface.flatS ⟨"x", 0, 0⟩], []⟩, ⟨"No expansions to undo", "info"⟩) :=
  ⟨rfl, undoLastExpansion_empty_noop ⟨[Surface.flatS ⟨"x", 0, 0⟩], []⟩ rfl⟩

/-- Claim C10: when the splice start offset exceeds the total length of
the text contained in a structured surface's leaves, the leaf walk returns
no node and the splice is a silent no-op: the surface is returned
unchanged, with no error. -/
theorem structured_splice_out_of_range :
    ∀ (s : StructuredSurface) (startPos endPos : Nat) (newText : String),
    (s.leaves.map String.length).sum < startPos →
    findTextNode s.leaves startPos = none ∧
    replaceTextStructured s startPos endPos newText = Except.ok s := by
  intro s startPos endPos newText h
  have hnone := findTextNode_none h
  refine ⟨hnone, ?_⟩
  unfold replaceTextStructured
  rw [hnone]

/-- Witness for C10 at a concrete out-of-range offset. -/
theorem structured_splice_out_of_range_witness :
    ((["ab", "c"] : List String).map String.length).sum < 4 ∧
    findTextNode ["ab", "c"] 4 = none ∧
    replaceTextStructured ⟨["ab", "c"], none⟩ 4 5 "Z" = Except.ok ⟨["ab", "c"], none⟩ :=
  ⟨by decide,
    (structured_splice_out_of_range ⟨["ab", "c"], none⟩ 4 5 "Z" (by decide)).1,
    (structured_splice_out_of_range ⟨["ab", "c"], none⟩ 4 5 "Z" (by decide)).2⟩
